import Mathlib

/-!
# SafeHarbor loader (`src/main.c`): lifecycle of the eBPF program handle and the poll loop

The C program talks to libbpf.  Every libbpf entry point whose outcome the
program branches on is a field of `Kernel`; the program itself is embedded as
functions that return, next to their C result, the ordered list of libbpf calls
they made (`Call`).  Nullable C pointers are `Option`s of a handle number, with
`none` for `NULL`.  A C array together with its element count is a list.
-/

namespace SafeHarbor

/-! ## Handles and the libbpf boundary -/

/-- Handle of a `struct bpf_object`. -/
abbrev bpf_object := Nat
/-- Handle of a `struct bpf_program`. -/
abbrev bpf_program := Nat
/-- Handle of a `struct bpf_map`. -/
abbrev bpf_map := Nat
/-- Handle of a `struct bpf_link`. -/
abbrev bpf_link := Nat

/-- Outcomes of the libbpf calls.  `bpf_program__attach` also receives the
index of the loop iteration issuing it, so that two attachments of one program
may have different outcomes.  `perf_buffer__new` gives the value that
`libbpf_get_error` reports for the buffer it returned (0 when it is usable). -/
structure Kernel where
  bpf_object__open : String → Option bpf_object
  bpf_object__load : bpf_object → Int
  bpf_object__find_program_by_name : bpf_object → String → Option bpf_program
  bpf_object__find_map_by_name : bpf_object → String → Option bpf_map
  bpf_program__attach : Nat → Option bpf_program → Option bpf_link
  perf_buffer__new : Option bpf_map → Int

/-- One libbpf call, with its arguments and, where the program reads it, its result. -/
inductive Call where
  | object_open (filename : String) (ret : Option bpf_object)
  | object_load (obj : bpf_object) (ret : Int)
  | find_program_by_name (obj : bpf_object) (name : String) (ret : Option bpf_program)
  | find_map_by_name (obj : bpf_object) (name : String) (ret : Option bpf_map)
  | program_attach (prog : Option bpf_program) (ret : Option bpf_link)
  | link_destroy (link : Option bpf_link)
  | program_unload (prog : Option bpf_program)
  | object_close (obj : Option bpf_object)
  | perf_buffer_new (map : Option bpf_map) (err : Int)
  | perf_buffer_poll (ret : Int)
  | perf_buffer_free
  deriving DecidableEq

/-! ## Structs -/

/-- The C `struct ebpf_params`: `maps` holds the first `map_count` entries of the
array `maps[8]`, `progs` the first `prog_count` entries of `progs[8]`. -/
structure ebpf_params where
  maps : List String
  progs : List String
  deriving DecidableEq

/-- The field `map_count` of `struct ebpf_params`. -/
def ebpf_params.map_count (params : ebpf_params) : Nat := params.maps.length

/-- The field `prog_count` of `struct ebpf_params`. -/
def ebpf_params.prog_count (params : ebpf_params) : Nat := params.progs.length

/-- The C `struct ebpf_map_table`; both members are `NULL` in a slot fresh from `calloc`. -/
structure ebpf_map_table where
  name : Option String
  map : Option bpf_map
  deriving DecidableEq

/-- The C `struct ebpf_program`. -/
structure ebpf_program where
  name : String
  obj : Option bpf_object
  maps : List ebpf_map_table
  map_count : Nat
  progs : List (Option bpf_program)
  prog_count : Nat
  links : List (Option bpf_link)
  link_count : Nat
  deriving DecidableEq

/-! ## `ebpf_program_open_and_load` -/

/-- The loop of lines 67-73 from index `i` on, over the names still to look up.
`none` is the jump to `exit_with_error`. -/
def resolve_progs (k : Kernel) (obj : bpf_object) :
    List String → Nat → ebpf_program → List Call × Option ebpf_program
  | [], _, prog => ([], some prog)
  | name :: rest, i, prog =>
    let r := k.bpf_object__find_program_by_name obj name
    let prog1 := { prog with progs := prog.progs.set i r }
    if r.isNone then ([Call.find_program_by_name obj name r], none)
    else
      let next := resolve_progs k obj rest (i + 1) prog1
      (Call.find_program_by_name obj name r :: next.1, next.2)

/-- The loop of lines 77-84 from index `i` on, over the names still to look up. -/
def resolve_maps (k : Kernel) (obj : bpf_object) :
    List String → Nat → ebpf_program → List Call × Option ebpf_program
  | [], _, prog => ([], some prog)
  | name :: rest, i, prog =>
    let r := k.bpf_object__find_map_by_name obj name
    let prog1 := { prog with maps := prog.maps.set i ⟨some name, r⟩ }
    if r.isNone then ([Call.find_map_by_name obj name r], none)
    else
      let next := resolve_maps k obj rest (i + 1) prog1
      (Call.find_map_by_name obj name r :: next.1, next.2)

/-- The loop of lines 93-99: `n` iterations are left, the next one has index `i`. -/
def attach_progs (k : Kernel) : Nat → Nat → ebpf_program → List Call × Option ebpf_program
  | 0, _, prog => ([], some prog)
  | n + 1, i, prog =>
    let p := prog.progs.getD i none
    let l := k.bpf_program__attach i p
    let prog1 := { prog with links := prog.links.set i l }
    if l.isNone then ([Call.program_attach p l], none)
    else
      let next := attach_progs k n (i + 1) prog1
      (Call.program_attach p l :: next.1, next.2)

/-- The C `ebpf_program_open_and_load`: the libbpf calls made, and the returned
pointer.  On `exit_with_error` the struct is freed and `NULL` returned; that path
makes no libbpf call. -/
def ebpf_program_open_and_load (k : Kernel) (filename : String) (params : ebpf_params) :
    List Call × Option ebpf_program :=
  let prog0 : ebpf_program :=
    { name := filename, obj := none, maps := [], map_count := 0,
      progs := [], prog_count := 0, links := [], link_count := 0 }
  let o := k.bpf_object__open filename
  let prog1 := { prog0 with obj := o }
  match o with
  | none => ([Call.object_open filename o], none)
  | some obj =>
    let ret := k.bpf_object__load obj
    if ret ≠ 0 then ([Call.object_open filename o, Call.object_load obj ret], none)
    else
      let prog2 := { prog1 with prog_count := params.prog_count,
                                progs := List.replicate params.prog_count none }
      let rp := resolve_progs k obj params.progs 0 prog2
      match rp.2 with
      | none => (Call.object_open filename o :: Call.object_load obj ret :: rp.1, none)
      | some prog3 =>
        let prog4 := { prog3 with map_count := params.map_count,
                                  maps := List.replicate params.map_count ⟨none, none⟩ }
        let rm := resolve_maps k obj params.maps 0 prog4
        match rm.2 with
        | none =>
          (Call.object_open filename o :: Call.object_load obj ret :: (rp.1 ++ rm.1), none)
        | some prog5 =>
          let prog6 := { prog5 with link_count := prog5.prog_count,
                                    links := List.replicate prog5.prog_count none }
          let ra := attach_progs k prog6.prog_count 0 prog6
          (Call.object_open filename o :: Call.object_load obj ret :: (rp.1 ++ rm.1 ++ ra.1),
            ra.2)

/-! ## `ebpf_program_destroy` and `ebpf_program_find_map_by_name` -/

/-- The loop of lines 111-114: `n` iterations are left, the next one has index `i`. -/
def destroy_links (prog : ebpf_program) : Nat → Nat → List Call
  | 0, _ => []
  | n + 1, i =>
    Call.link_destroy (prog.links.getD i none) ::
      Call.program_unload (prog.progs.getD i none) :: destroy_links prog n (i + 1)

/-- The C `ebpf_program_destroy`: the libbpf calls it makes, in order. -/
def ebpf_program_destroy (prog : ebpf_program) : List Call :=
  destroy_links prog prog.prog_count 0 ++ [Call.object_close prog.obj]

/-- The loop of lines 127-131: `n` iterations are left, the next one has index `i`.
`strcmp(a, b) == 0` is equality of the two strings. -/
def find_map_from (prog : ebpf_program) (name : String) : Nat → Nat → Option bpf_map
  | 0, _ => none
  | n + 1, i =>
    let slot := prog.maps.getD i ⟨none, none⟩
    if slot.name = some name then slot.map
    else find_map_from prog name n (i + 1)

/-- The C `ebpf_program_find_map_by_name`. -/
def ebpf_program_find_map_by_name (prog : ebpf_program) (name : String) : Option bpf_map :=
  find_map_from prog name prog.map_count 0

/-! ## The poll loop and `main` -/

/-- What the environment does around one `perf_buffer__poll` call. -/
structure Wait where
  /-- `sig_int` runs after the preceding statement and before the call is entered
  (after the test of `g_run`, when the call follows one). -/
  sig_before : Bool
  /-- `sig_int` runs while the call blocks, or after it returned and before the
  next statement. -/
  sig_during : Bool
  /-- The value the call returns. -/
  ret : Int
  deriving DecidableEq

/-- One step of the loop of lines 214-217: a test of `g_run` with the value read,
or a `perf_buffer__poll` call with the result returned and the value `g_run` had
when the call was entered. -/
inductive Step where
  | read_g_run (value : Bool)
  | poll (g_run_at_call : Bool) (ret : Int)
  deriving DecidableEq

/-- The loop `while (g_run) { while (perf_buffer__poll(pb, 1000) > 0) {} }`, run
against the list of waits the environment provides.  `draining` tells that
control is inside the inner loop (the previous call returned a positive count);
`g_run` is the current value of the flag, which `sig_int` only ever sets to false.
The steps end when the loop is left (last step `read_g_run false`) or when the
list of waits is used up. -/
def poll_loop : Bool → Bool → List Wait → List Step
  | draining, g_run, [] =>
    if draining then [] else [Step.read_g_run g_run]
  | draining, g_run, w :: rest =>
    if !draining && !g_run then [Step.read_g_run false]
    else
      let g1 := g_run && !w.sig_before
      let g2 := g1 && !w.sig_during
      let tail := Step.poll g1 w.ret :: poll_loop (decide (0 < w.ret)) g2 rest
      if draining then tail else Step.read_g_run true :: tail

/-- The loop was left: its last step read `g_run` as false. -/
def loop_left (steps : List Step) : Bool :=
  steps.getLast? == some (Step.read_g_run false)

/-- The `perf_buffer__poll` calls among the steps. -/
def poll_calls : List Step → List Call
  | [] => []
  | Step.read_g_run _ :: rest => poll_calls rest
  | Step.poll _ ret :: rest => Call.perf_buffer_poll ret :: poll_calls rest

/-- The conversion of a `long` to a 32-bit `int`, as in `int ret = libbpf_get_error(pb)`:
the value is reduced modulo 2^32 into the range of `int`. -/
def long_to_int (x : Int) : Int :=
  (x + 2147483648) % 4294967296 - 2147483648

/-- The C macro `DEFAULT_EBPF_PROGRAMS_DIR`. -/
def DEFAULT_EBPF_PROGRAMS_DIR : String := "./build/ebpf"

/-- The `params` of `main` (lines 183-188). -/
def main_params : ebpf_params :=
  { maps := ["output", "my_config"], progs := ["hello"] }

/-- The C `main`: the libbpf calls made and the exit code, `none` when the list
of waits is used up before the loop is left.  `argv` is the argument vector with
the program name first; `sig_startup` tells that `sig_int` ran before the loop was
entered.  `snprintf` cuts the file name to the 255 bytes that fit the buffer; the
cut here counts characters, which are bytes for file names of ASCII characters.
The `long` of `libbpf_get_error` is stored in the `int ret` through `long_to_int`. -/
def main (k : Kernel) (argv : List String) (sig_startup : Bool) (waits : List Wait) :
    List Call × Option Int :=
  let ebpf_programs_dir := if argv.length = 2 then argv.getD 1 "" else DEFAULT_EBPF_PROGRAMS_DIR
  let filename := (ebpf_programs_dir ++ "/hello.bpf.o").take 255
  let r := ebpf_program_open_and_load k filename main_params
  match r.2 with
  | none => (r.1, some 1)
  | some prog =>
    let output := ebpf_program_find_map_by_name prog "output"
    if output.isNone then (r.1, some 1)
    else
      let ret := long_to_int (k.perf_buffer__new output)
      let cleanup := Call.perf_buffer_free :: ebpf_program_destroy prog
      if ret ≠ 0 then (r.1 ++ Call.perf_buffer_new output ret :: cleanup, some 0)
      else
        let steps := poll_loop false (!sig_startup) waits
        if loop_left steps then
          (r.1 ++ Call.perf_buffer_new output ret :: (poll_calls steps ++ cleanup), some 0)
        else (r.1 ++ Call.perf_buffer_new output ret :: poll_calls steps, none)

/-! ## Observations on call lists -/

/-- The link a call created: the result of a `bpf_program__attach` that succeeded. -/
def Call.attached : Call → Option bpf_link
  | Call.program_attach _ (some l) => some l
  | _ => none

/-- The argument of a `bpf_link__destroy` call. -/
def Call.destroyed : Call → Option (Option bpf_link)
  | Call.link_destroy l => some l
  | _ => none

/-- The argument of a `bpf_program__unload` call. -/
def Call.unloaded : Call → Option (Option bpf_program)
  | Call.program_unload p => some p
  | _ => none

/-- The call is a `bpf_object__close`. -/
def Call.is_close : Call → Bool
  | Call.object_close _ => true
  | _ => false

/-- The call is a `bpf_program__attach`. -/
def Call.is_attach : Call → Bool
  | Call.program_attach _ _ => true
  | _ => false

/-- Links that `bpf_program__attach` returned, in call order. -/
def attached_links (calls : List Call) : List bpf_link :=
  calls.filterMap Call.attached

/-- Arguments of the `bpf_link__destroy` calls, in call order. -/
def destroyed_links (calls : List Call) : List (Option bpf_link) :=
  calls.filterMap Call.destroyed

/-- Arguments of the `bpf_program__unload` calls, in call order. -/
def unloaded_progs (calls : List Call) : List (Option bpf_program) :=
  calls.filterMap Call.unloaded

/-- Number of `bpf_object__close` calls. -/
def close_count (calls : List Call) : Nat :=
  calls.countP Call.is_close

/-- Number of links created by `bpf_program__attach` and not passed to
`bpf_link__destroy` afterwards. -/
def links_left (calls : List Call) : Nat :=
  (attached_links calls).length - (destroyed_links calls).length

/-! ## Observations on the steps of the poll loop -/

/-- The step is a `perf_buffer__poll` call entered when `g_run` was already false. -/
def Step.is_late : Step → Bool
  | Step.poll g_run_at_call _ => !g_run_at_call
  | Step.read_g_run _ => false

/-- The step is a `perf_buffer__poll` call entered when `g_run` was already false
that returned no positive count. -/
def Step.is_late_idle : Step → Bool
  | Step.poll g_run_at_call ret => !g_run_at_call && decide (ret ≤ 0)
  | Step.read_g_run _ => false

/-- Number of `perf_buffer__poll` calls entered after `g_run` was set to false. -/
def late_polls (steps : List Step) : Nat := steps.countP Step.is_late

/-- Number of `perf_buffer__poll` calls entered after `g_run` was set to false
that returned no positive count. -/
def late_idle_polls (steps : List Step) : Nat := steps.countP Step.is_late_idle

/-- Step `b` may come directly after step `a`: a call follows a test that read
true and a call that returned a positive count; a test follows a call that
returned zero or a negative value; nothing follows a test that read false. -/
def Step.follows : Step → Step → Bool
  | Step.read_g_run true, Step.poll _ _ => true
  | Step.poll _ ret, Step.poll _ _ => decide (0 < ret)
  | Step.poll _ ret, Step.read_g_run _ => decide (ret ≤ 0)
  | _, _ => false

/-- The wait with a negative return value replaced by 0. -/
def Wait.as_no_data (w : Wait) : Wait :=
  if w.ret < 0 then { w with ret := 0 } else w

/-- The step with a negative return value replaced by 0. -/
def Step.as_no_data : Step → Step
  | Step.poll g_run_at_call ret => if ret < 0 then Step.poll g_run_at_call 0
    else Step.poll g_run_at_call ret
  | Step.read_g_run value => Step.read_g_run value

/-- The `perf_buffer__poll` calls of one drain run, written from the words of the
specification: one call per wait, in order, with no test of `g_run` between
them.  `g_run` is the value of the flag when the run starts. -/
def drain_steps : Bool → List Wait → List Step
  | _, [] => []
  | g_run, w :: rest =>
    Step.poll (g_run && !w.sig_before) w.ret ::
      drain_steps (g_run && !w.sig_before && !w.sig_during) rest

/-- The value of `g_run` once the given waits are over, when it was `g_run`
before them: `sig_int` only ever sets it to false. -/
def flag_after : Bool → List Wait → Bool
  | g_run, [] => g_run
  | g_run, w :: rest => flag_after (g_run && !w.sig_before && !w.sig_during) rest

/-- Three waits: `sig_int` runs during the first, the first two return one record. -/
def sample_waits : List Wait :=
  [⟨false, true, 1⟩, ⟨false, false, 1⟩, ⟨false, false, 0⟩]

/-! ## Sample kernels -/

/-- A kernel whose object file opens as object 1 and holds the programs `hello`
and `bye` and the maps `output` and `my_config`.  Loading returns `load_ret`,
the attachments of index below `attach_limit` get a fresh link and the others
fail, and the perf buffer is created with error code `pb_err`. -/
def sample_kernel (load_ret : Int) (attach_limit : Nat) (pb_err : Int) : Kernel :=
  { bpf_object__open := fun _ => some 1
    bpf_object__load := fun _ => load_ret
    bpf_object__find_program_by_name := fun _ name => List.lookup name [("hello", 10), ("bye", 11)]
    bpf_object__find_map_by_name := fun _ name =>
      List.lookup name [("output", 20), ("my_config", 21)]
    bpf_program__attach := fun i _ => if i < attach_limit then some (30 + i) else none
    perf_buffer__new := fun _ => pb_err }

/-- A kernel in which every call on the sample object succeeds. -/
def kernel_ok : Kernel := sample_kernel 0 8 0

/-- A configuration with two entry points. -/
def two_progs_params : ebpf_params :=
  { maps := ["output", "my_config"], progs := ["hello", "bye"] }

/-- A configuration whose entry point is absent from the sample object. -/
def missing_params : ebpf_params :=
  { maps := ["output", "my_config"], progs := ["missing_one"] }

/-- The handle built for `main_params` on `kernel_ok`. -/
def sample_handle : ebpf_program :=
  { name := "hello.bpf.o", obj := some 1,
    maps := [⟨some "output", some 20⟩, ⟨some "my_config", some 21⟩], map_count := 2,
    progs := [some 10], prog_count := 1, links := [some 30], link_count := 1 }

/-- The handle built for `two_progs_params` on `kernel_ok`. -/
def sample_handle_two : ebpf_program :=
  { name := "hello.bpf.o", obj := some 1,
    maps := [⟨some "output", some 20⟩, ⟨some "my_config", some 21⟩], map_count := 2,
    progs := [some 10, some 11], prog_count := 2, links := [some 30, some 31], link_count := 2 }

/-! ## Auxiliary functions for stating what the loops do -/

/-- The elements of a list up to and including the first one that fails `p`. -/
def through_first_failure {α : Type} (p : α → Bool) : List α → List α
  | [] => []
  | a :: rest => if p a then a :: through_first_failure p rest else [a]

/-- A name that `ebpf_program_open_and_load` looks up in the object. -/
inductive Lookup where
  | prog (name : String)
  | map (name : String)
  deriving DecidableEq

/-- The lookups a configuration asks for: entry points first, maps second,
each group in the order of its array. -/
def lookups (params : ebpf_params) : List Lookup :=
  params.progs.map Lookup.prog ++ params.maps.map Lookup.map

/-- The object holds what the lookup asks for. -/
def Lookup.present (k : Kernel) (obj : bpf_object) : Lookup → Bool
  | Lookup.prog name => (k.bpf_object__find_program_by_name obj name).isSome
  | Lookup.map name => (k.bpf_object__find_map_by_name obj name).isSome

/-- The libbpf call that performs a lookup. -/
def Lookup.call (k : Kernel) (obj : bpf_object) : Lookup → Call
  | Lookup.prog name =>
    Call.find_program_by_name obj name (k.bpf_object__find_program_by_name obj name)
  | Lookup.map name =>
    Call.find_map_by_name obj name (k.bpf_object__find_map_by_name obj name)

/-- The call that iteration `j` of the attachment loop makes, given the array of
resolved entry points. -/
def attach_call (k : Kernel) (progs : List (Option bpf_program)) (j : Nat) : Call :=
  Call.program_attach (progs.getD j none) (k.bpf_program__attach j (progs.getD j none))

/-- Iteration `j` of the attachment loop gets a link. -/
def attach_ok (k : Kernel) (progs : List (Option bpf_program)) (j : Nat) : Bool :=
  (k.bpf_program__attach j (progs.getD j none)).isSome

/-- The handle that `ebpf_program_open_and_load` builds on object `obj` when no
step fails. -/
def constructed (k : Kernel) (filename : String) (params : ebpf_params) (obj : bpf_object) :
    ebpf_program :=
  { name := filename
    obj := some obj
    maps := params.maps.map (fun n => ⟨some n, k.bpf_object__find_map_by_name obj n⟩)
    map_count := params.maps.length
    progs := params.progs.map (k.bpf_object__find_program_by_name obj)
    prog_count := params.progs.length
    links := (List.range' 0 params.progs.length).map (fun j =>
      k.bpf_program__attach j
        ((params.progs.map (k.bpf_object__find_program_by_name obj)).getD j none))
    link_count := params.progs.length }

/-- Every attachment of the entry points resolved on `obj` gets a link. -/
def attaches_ok (k : Kernel) (params : ebpf_params) (obj : bpf_object) : Bool :=
  (List.range' 0 params.progs.length).all
    (attach_ok k (params.progs.map (k.bpf_object__find_program_by_name obj)))

/-- The `bpf_program__attach` calls made on the entry points resolved on `obj`:
in index order, up to and including the first that fails. -/
def attach_calls (k : Kernel) (params : ebpf_params) (obj : bpf_object) : List Call :=
  (through_first_failure
    (attach_ok k (params.progs.map (k.bpf_object__find_program_by_name obj)))
    (List.range' 0 params.progs.length)).map
    (attach_call k (params.progs.map (k.bpf_object__find_program_by_name obj)))

/-! ## Lemmas on lists -/

theorem set_length_append {α : Type} (pre : List α) (x y : α) (post : List α) :
    (pre ++ x :: post).set pre.length y = pre ++ y :: post := by
  induction pre with
  | nil => rfl
  | cons a pre ih => simp [List.set, ih]

theorem through_first_failure_all {α : Type} (p : α → Bool) (l : List α)
    (h : ∀ a ∈ l, p a = true) : through_first_failure p l = l := by
  induction l with
  | nil => rfl
  | cons a l ih =>
    have ha : p a = true := h a (by simp)
    have hl : ∀ b ∈ l, p b = true := fun b hb => h b (by simp [hb])
    simp [through_first_failure, ha, ih hl]

theorem through_first_failure_split {α : Type} (p : α → Bool) (pre : List α) (miss : α)
    (post : List α) (hpre : ∀ a ∈ pre, p a = true) (hmiss : p miss = false) :
    through_first_failure p (pre ++ miss :: post) = pre ++ [miss] := by
  induction pre with
  | nil => simp [through_first_failure, hmiss]
  | cons a pre ih =>
    have ha : p a = true := hpre a (by simp)
    have hl : ∀ b ∈ pre, p b = true := fun b hb => hpre b (by simp [hb])
    simp [through_first_failure, ha, ih hl]

theorem through_first_failure_append {α : Type} (p : α → Bool) (l₁ l₂ : List α) :
    through_first_failure p (l₁ ++ l₂) =
      if l₁.all p then l₁ ++ through_first_failure p l₂ else through_first_failure p l₁ := by
  induction l₁ with
  | nil => simp
  | cons a l ih =>
    by_cases ha : p a = true
    · have hc : through_first_failure p (a :: (l ++ l₂)) =
          a :: through_first_failure p (l ++ l₂) := by simp [through_first_failure, ha]
      rw [List.cons_append, hc, ih]
      by_cases hl : l.all p = true
      · simp [hl, ha]
      · simp [hl, ha, through_first_failure]
    · simp [through_first_failure, ha]

theorem through_first_failure_map {α β : Type} (f : α → β) (p : β → Bool) (l : List α) :
    through_first_failure p (l.map f) = (through_first_failure (fun a => p (f a)) l).map f := by
  induction l with
  | nil => rfl
  | cons a l ih =>
    simp only [List.map_cons, through_first_failure, ih]
    split <;> rfl

/-! ## The resolution loops -/

theorem resolve_progs_calls (k : Kernel) (obj : bpf_object) (names : List String) :
    ∀ (i : Nat) (prog : ebpf_program),
      (resolve_progs k obj names i prog).1 =
        (through_first_failure (Lookup.present k obj) (names.map Lookup.prog)).map
          (Lookup.call k obj) := by
  induction names with
  | nil => intro i prog; rfl
  | cons n names ih =>
    intro i prog
    cases hr : k.bpf_object__find_program_by_name obj n with
    | none => simp [resolve_progs, through_first_failure, Lookup.present, Lookup.call, hr]
    | some r => simp [resolve_progs, through_first_failure, Lookup.present, Lookup.call, hr, ih]

theorem resolve_progs_none (k : Kernel) (obj : bpf_object) (names : List String) :
    ∀ (i : Nat) (prog : ebpf_program),
      (names.map Lookup.prog).all (Lookup.present k obj) = false →
      (resolve_progs k obj names i prog).2 = none := by
  induction names with
  | nil => intro i prog h; simp at h
  | cons n names ih =>
    intro i prog h
    cases hr : k.bpf_object__find_program_by_name obj n with
    | none => simp [resolve_progs, hr]
    | some r =>
      have h2 : (names.map Lookup.prog).all (Lookup.present k obj) = false := by
        simpa [Lookup.present, hr] using h
      simp [resolve_progs, hr, ih _ _ h2]

theorem resolve_progs_some (k : Kernel) (obj : bpf_object) (names : List String) :
    ∀ (i : Nat) (prog : ebpf_program) (pre mid post : List (Option bpf_program)),
      prog.progs = pre ++ mid ++ post → pre.length = i → mid.length = names.length →
      (names.map Lookup.prog).all (Lookup.present k obj) = true →
      (resolve_progs k obj names i prog).2 =
        some { prog with
          progs := pre ++ names.map (k.bpf_object__find_program_by_name obj) ++ post } := by
  induction names with
  | nil =>
    intro i prog pre mid post hp _ hm _
    have : mid = [] := List.length_eq_zero.mp hm
    subst this
    cases prog
    simp_all [resolve_progs]
  | cons n names ih =>
    intro i prog pre mid post hp hi hm hall
    cases mid with
    | nil => simp at hm
    | cons m mid =>
      cases hr : k.bpf_object__find_program_by_name obj n with
      | none => simp [Lookup.present, hr] at hall
      | some r =>
        have h2 : (names.map Lookup.prog).all (Lookup.present k obj) = true := by
          simpa [Lookup.present, hr] using hall
        have hset : prog.progs.set i (some r) = (pre ++ [some r]) ++ mid ++ post := by
          rw [hp, ← hi]
          simp
        have := ih (i + 1) { prog with progs := prog.progs.set i (some r) }
          (pre ++ [some r]) mid post hset (by simp [hi]) (Nat.succ.inj hm) h2
        simp [resolve_progs, hr, this]

theorem resolve_maps_calls (k : Kernel) (obj : bpf_object) (names : List String) :
    ∀ (i : Nat) (prog : ebpf_program),
      (resolve_maps k obj names i prog).1 =
        (through_first_failure (Lookup.present k obj) (names.map Lookup.map)).map
          (Lookup.call k obj) := by
  induction names with
  | nil => intro i prog; rfl
  | cons n names ih =>
    intro i prog
    cases hr : k.bpf_object__find_map_by_name obj n with
    | none => simp [resolve_maps, through_first_failure, Lookup.present, Lookup.call, hr]
    | some r => simp [resolve_maps, through_first_failure, Lookup.present, Lookup.call, hr, ih]

theorem resolve_maps_none (k : Kernel) (obj : bpf_object) (names : List String) :
    ∀ (i : Nat) (prog : ebpf_program),
      (names.map Lookup.map).all (Lookup.present k obj) = false →
      (resolve_maps k obj names i prog).2 = none := by
  induction names with
  | nil => intro i prog h; simp at h
  | cons n names ih =>
    intro i prog h
    cases hr : k.bpf_object__find_map_by_name obj n with
    | none => simp [resolve_maps, hr]
    | some r =>
      have h2 : (names.map Lookup.map).all (Lookup.present k obj) = false := by
        simpa [Lookup.present, hr] using h
      simp [resolve_maps, hr, ih _ _ h2]

theorem resolve_maps_some (k : Kernel) (obj : bpf_object) (names : List String) :
    ∀ (i : Nat) (prog : ebpf_program) (pre mid post : List ebpf_map_table),
      prog.maps = pre ++ mid ++ post → pre.length = i → mid.length = names.length →
      (names.map Lookup.map).all (Lookup.present k obj) = true →
      (resolve_maps k obj names i prog).2 =
        some { prog with
          maps := pre ++ names.map
            (fun n => ⟨some n, k.bpf_object__find_map_by_name obj n⟩) ++ post } := by
  induction names with
  | nil =>
    intro i prog pre mid post hp _ hm _
    have : mid = [] := List.length_eq_zero.mp hm
    subst this
    cases prog
    simp_all [resolve_maps]
  | cons n names ih =>
    intro i prog pre mid post hp hi hm hall
    cases mid with
    | nil => simp at hm
    | cons m mid =>
      cases hr : k.bpf_object__find_map_by_name obj n with
      | none => simp [Lookup.present, hr] at hall
      | some r =>
        have h2 : (names.map Lookup.map).all (Lookup.present k obj) = true := by
          simpa [Lookup.present, hr] using hall
        have hset : prog.maps.set i ⟨some n, some r⟩ =
            (pre ++ [⟨some n, some r⟩]) ++ mid ++ post := by
          rw [hp, ← hi]
          simp
        have := ih (i + 1) { prog with maps := prog.maps.set i ⟨some n, some r⟩ }
          (pre ++ [⟨some n, some r⟩]) mid post hset (by simp [hi]) (Nat.succ.inj hm) h2
        simp [resolve_maps, hr, this]

/-! ## The attachment loop -/

theorem attach_progs_calls (k : Kernel) (n : Nat) :
    ∀ (i : Nat) (prog : ebpf_program),
      (attach_progs k n i prog).1 =
        (through_first_failure (attach_ok k prog.progs) (List.range' i n)).map
          (attach_call k prog.progs) := by
  induction n with
  | zero => intro i prog; rfl
  | succ n ih =>
    intro i prog
    cases hr : k.bpf_program__attach i (prog.progs.getD i none) with
    | none =>
      simp [attach_progs, through_first_failure, attach_ok, attach_call, hr, List.range'_succ,
        -List.getD_eq_getElem?_getD]
    | some r =>
      have := ih (i + 1) { prog with links := prog.links.set i (some r) }
      simp only [attach_ok, attach_call] at this
      simp [attach_progs, through_first_failure, attach_ok, attach_call, hr, List.range'_succ,
        this, -List.getD_eq_getElem?_getD]

theorem attach_progs_none (k : Kernel) (n : Nat) :
    ∀ (i : Nat) (prog : ebpf_program),
      (List.range' i n).all (attach_ok k prog.progs) = false →
      (attach_progs k n i prog).2 = none := by
  induction n with
  | zero => intro i prog h; simp at h
  | succ n ih =>
    intro i prog h
    cases hr : k.bpf_program__attach i (prog.progs.getD i none) with
    | none => simp [attach_progs, hr, -List.getD_eq_getElem?_getD]
    | some r =>
      have h2 : (List.range' (i + 1) n).all
          (attach_ok k prog.progs) = false := by
        simpa [attach_ok, hr, List.range'_succ, -List.getD_eq_getElem?_getD] using h
      simp [attach_progs, hr, ih (i + 1) { prog with links := prog.links.set i (some r) } h2,
        -List.getD_eq_getElem?_getD]

theorem attach_progs_some (k : Kernel) (n : Nat) :
    ∀ (i : Nat) (prog : ebpf_program) (pre mid post : List (Option bpf_link)),
      prog.links = pre ++ mid ++ post → pre.length = i → mid.length = n →
      (List.range' i n).all (attach_ok k prog.progs) = true →
      (attach_progs k n i prog).2 =
        some { prog with
          links := pre ++ (List.range' i n).map
            (fun j => k.bpf_program__attach j (prog.progs.getD j none)) ++ post } := by
  induction n with
  | zero =>
    intro i prog pre mid post hp _ hm _
    have : mid = [] := List.length_eq_zero.mp hm
    subst this
    cases prog
    simp_all [attach_progs]
  | succ n ih =>
    intro i prog pre mid post hp hi hm hall
    cases mid with
    | nil => simp at hm
    | cons m mid =>
      cases hr : k.bpf_program__attach i (prog.progs.getD i none) with
      | none => simp [attach_ok, hr, List.range'_succ, -List.getD_eq_getElem?_getD] at hall
      | some r =>
        have h2 : (List.range' (i + 1) n).all
            (attach_ok k prog.progs) = true := by
          simpa [attach_ok, hr, List.range'_succ, -List.getD_eq_getElem?_getD] using hall
        have hset : prog.links.set i (some r) = (pre ++ [some r]) ++ mid ++ post := by
          rw [hp, ← hi]
          simp
        have := ih (i + 1) { prog with links := prog.links.set i (some r) }
          (pre ++ [some r]) mid post hset (by simp [hi]) (Nat.succ.inj hm) h2
        simp [attach_progs, hr, this, List.range'_succ, -List.getD_eq_getElem?_getD]

/-! ## `ebpf_program_open_and_load` in closed form -/

theorem open_and_load_open_failed (k : Kernel) (filename : String) (params : ebpf_params)
    (ho : k.bpf_object__open filename = none) :
    ebpf_program_open_and_load k filename params =
      ([Call.object_open filename none], none) := by
  simp [ebpf_program_open_and_load, ho]

theorem open_and_load_load_failed (k : Kernel) (filename : String) (params : ebpf_params)
    (obj : bpf_object) (ho : k.bpf_object__open filename = some obj)
    (hl : k.bpf_object__load obj ≠ 0) :
    ebpf_program_open_and_load k filename params =
      ([Call.object_open filename (some obj),
        Call.object_load obj (k.bpf_object__load obj)], none) := by
  simp [ebpf_program_open_and_load, ho, hl]

theorem lookups_all (k : Kernel) (obj : bpf_object) (params : ebpf_params) :
    (lookups params).all (Lookup.present k obj) =
      ((params.progs.map Lookup.prog).all (Lookup.present k obj) &&
        (params.maps.map Lookup.map).all (Lookup.present k obj)) := by
  simp [lookups, List.all_append]

theorem open_and_load_loaded (k : Kernel) (filename : String) (params : ebpf_params)
    (obj : bpf_object) (ho : k.bpf_object__open filename = some obj)
    (hl : k.bpf_object__load obj = 0) :
    ebpf_program_open_and_load k filename params =
      (Call.object_open filename (some obj) :: Call.object_load obj 0 ::
        ((through_first_failure (Lookup.present k obj) (lookups params)).map (Lookup.call k obj)
          ++ (if (lookups params).all (Lookup.present k obj) then attach_calls k params obj
              else [])),
       if (lookups params).all (Lookup.present k obj) && attaches_ok k params obj
       then some (constructed k filename params obj) else none) := by
  have hcalls : through_first_failure (Lookup.present k obj) (lookups params) =
      if (params.progs.map Lookup.prog).all (Lookup.present k obj)
      then params.progs.map Lookup.prog ++
        through_first_failure (Lookup.present k obj) (params.maps.map Lookup.map)
      else through_first_failure (Lookup.present k obj) (params.progs.map Lookup.prog) :=
    through_first_failure_append _ _ _
  rw [lookups_all, hcalls]
  unfold ebpf_program_open_and_load
  simp only [ho, hl, ne_eq, not_true_eq_false, if_false, resolve_progs_calls, resolve_maps_calls,
    attach_progs_calls]
  cases hP : (params.progs.map Lookup.prog).all (Lookup.present k obj) with
  | false =>
    rw [resolve_progs_none k obj params.progs _ _ hP]
    simp
  | true =>
    rw [resolve_progs_some k obj params.progs 0 _ [] (List.replicate params.prog_count none) []
      (by simp) rfl (by simp [ebpf_params.prog_count]) hP]
    have hPall : through_first_failure (Lookup.present k obj) (params.progs.map Lookup.prog) =
        params.progs.map Lookup.prog :=
      through_first_failure_all _ _ (by simpa using hP)
    cases hM : (params.maps.map Lookup.map).all (Lookup.present k obj) with
    | false =>
      simp only []
      rw [resolve_maps_none k obj params.maps _ _ hM]
      simp [hPall]
    | true =>
      simp only []
      rw [resolve_maps_some k obj params.maps 0 _ []
        (List.replicate params.map_count ⟨none, none⟩) []
        (by simp) rfl (by simp [ebpf_params.map_count]) hM]
      have hMall : through_first_failure (Lookup.present k obj) (params.maps.map Lookup.map) =
          params.maps.map Lookup.map :=
        through_first_failure_all _ _ (by simpa using hM)
      simp only [hPall, hMall, List.nil_append, List.append_nil, ebpf_params.prog_count,
        ebpf_params.map_count, if_true, Bool.true_and, List.map_append, List.append_assoc]
      cases hA : attaches_ok k params obj with
      | false =>
        rw [attach_progs_none k params.progs.length 0 _ (by simpa [attaches_ok] using hA)]
        simp [attach_calls]
      | true =>
        rw [attach_progs_some k params.progs.length 0 _ []
          (List.replicate params.progs.length none) [] (by simp) rfl (by simp)
          (by simpa [attaches_ok] using hA)]
        simp [attach_calls, constructed]

/-! ## What a returned handle looks like -/

theorem open_and_load_some (k : Kernel) (filename : String) (params : ebpf_params)
    (h : ebpf_program) (hs : (ebpf_program_open_and_load k filename params).2 = some h) :
    ∃ obj, k.bpf_object__open filename = some obj ∧ k.bpf_object__load obj = 0 ∧
      (lookups params).all (Lookup.present k obj) = true ∧ attaches_ok k params obj = true ∧
      h = constructed k filename params obj ∧
      (ebpf_program_open_and_load k filename params).1 =
        Call.object_open filename (some obj) :: Call.object_load obj 0 ::
          ((lookups params).map (Lookup.call k obj) ++ attach_calls k params obj) := by
  cases ho : k.bpf_object__open filename with
  | none => rw [open_and_load_open_failed k filename params ho] at hs; simp at hs
  | some obj =>
    by_cases hl : k.bpf_object__load obj = 0
    · rw [open_and_load_loaded k filename params obj ho hl] at hs ⊢
      cases hL : (lookups params).all (Lookup.present k obj) with
      | false => simp [hL] at hs
      | true =>
        cases hA : attaches_ok k params obj with
        | false => simp [hL, hA] at hs
        | true =>
          refine ⟨obj, rfl, hl, hL, hA, ?_, ?_⟩
          · simpa [hL, hA] using hs.symm
          · have hall : ∀ a ∈ lookups params, Lookup.present k obj a = true := by
              simpa using hL
            simp [through_first_failure_all _ _ hall, hL]
    · rw [open_and_load_load_failed k filename params obj ho hl] at hs
      simp at hs

theorem attach_calls_of_ok (k : Kernel) (params : ebpf_params) (obj : bpf_object)
    (hA : attaches_ok k params obj = true) :
    attach_calls k params obj =
      (List.range' 0 params.progs.length).map
        (attach_call k (params.progs.map (k.bpf_object__find_program_by_name obj))) := by
  have hall : ∀ j ∈ List.range' 0 params.progs.length,
      attach_ok k (params.progs.map (k.bpf_object__find_program_by_name obj)) j = true := by
    simpa [attaches_ok] using hA
  simp [attach_calls, through_first_failure_all _ _ hall]

theorem range_map_getD {α : Type} (d : α) (l : List α) :
    ∀ pre : List α, (List.range' pre.length l.length).map (fun j => (pre ++ l).getD j d) = l := by
  induction l with
  | nil => intro pre; rfl
  | cons a l ih =>
    intro pre
    have := ih (pre ++ [a])
    simp only [List.length_append, List.length_singleton, List.append_assoc,
      List.singleton_append] at this
    simp [List.range'_succ, this, -List.getD_eq_getElem?_getD, List.getD_append_right]

/-! ## The loops of `ebpf_program_destroy` and `ebpf_program_find_map_by_name` -/

theorem destroy_links_destroyed (prog : ebpf_program) (n : Nat) :
    ∀ i, destroyed_links (destroy_links prog n i) =
      (List.range' i n).map (fun j => prog.links.getD j none) := by
  induction n with
  | zero => intro i; rfl
  | succ n ih =>
    intro i
    have := ih (i + 1)
    simp only [destroyed_links] at this
    simp [destroy_links, destroyed_links, List.filterMap_cons, Call.destroyed, List.range'_succ,
      this, -List.getD_eq_getElem?_getD]

theorem destroy_links_unloaded (prog : ebpf_program) (n : Nat) :
    ∀ i, unloaded_progs (destroy_links prog n i) =
      (List.range' i n).map (fun j => prog.progs.getD j none) := by
  induction n with
  | zero => intro i; rfl
  | succ n ih =>
    intro i
    have := ih (i + 1)
    simp only [unloaded_progs] at this
    simp [destroy_links, unloaded_progs, List.filterMap_cons, Call.unloaded, List.range'_succ,
      this, -List.getD_eq_getElem?_getD]

theorem destroy_links_close_count (prog : ebpf_program) (n : Nat) :
    ∀ i, close_count (destroy_links prog n i) = 0 := by
  induction n with
  | zero => intro i; rfl
  | succ n ih =>
    intro i
    have := ih (i + 1)
    simp only [close_count] at this
    simp [destroy_links, close_count, List.countP_cons, Call.is_close, this]

theorem find_map_from_eq (prog : ebpf_program) (name : String) (n : Nat) :
    ∀ i, i + n = prog.maps.length →
      find_map_from prog name n i =
        ((prog.maps.drop i).find? (fun s => decide (s.name = some name))).bind
          ebpf_map_table.map := by
  induction n with
  | zero =>
    intro i hi
    have : prog.maps.drop i = [] := List.drop_eq_nil_of_le (by omega)
    simp [find_map_from, this]
  | succ n ih =>
    intro i hi
    have hlt : i < prog.maps.length := by omega
    rw [List.drop_eq_getElem_cons hlt, List.find?_cons]
    have hget : prog.maps.getD i ⟨none, none⟩ = prog.maps[i] := by
      simp [List.getD_eq_getElem?_getD, List.getElem?_eq_getElem hlt]
    simp only [find_map_from, hget]
    by_cases hname : prog.maps[i].name = some name
    · simp [hname]
    · simp [hname, ih (i + 1) (by omega)]

theorem find?_first {α : Type} (p : α → Bool) (l : List α) (hex : ∃ a ∈ l, p a = true) :
    ∃ i a, l[i]? = some a ∧ p a = true ∧
      (∀ j : Nat, j < i → ∀ b, l[j]? = some b → p b = false) ∧ l.find? p = some a := by
  induction l with
  | nil => simp at hex
  | cons x l ih =>
    by_cases hx : p x = true
    · refine ⟨0, x, by simp, hx, ?_, by simp [List.find?_cons, hx]⟩
      intro j hj
      omega
    · have hex2 : ∃ a ∈ l, p a = true := by
        obtain ⟨a, ha, hpa⟩ := hex
        rcases List.mem_cons.mp ha with rfl | hmem
        · exact absurd hpa hx
        · exact ⟨a, hmem, hpa⟩
      obtain ⟨i, a, hia, hpa, hfirst, hfind⟩ := ih hex2
      refine ⟨i + 1, a, by simpa using hia, hpa, ?_, by simp [List.find?_cons, hx, hfind]⟩
      intro j hj b hb
      cases j with
      | zero =>
        have : b = x := by simpa using hb.symm
        subst this
        simpa using hx
      | succ j => exact hfirst j (by omega) b (by simpa using hb)

theorem destroy_of_lengths (prog : ebpf_program) (hl : prog.links.length = prog.prog_count)
    (hp : prog.progs.length = prog.prog_count) :
    destroyed_links (destroy_links prog prog.prog_count 0) = prog.links ∧
      unloaded_progs (destroy_links prog prog.prog_count 0) = prog.progs := by
  constructor
  · rw [destroy_links_destroyed, ← hl]
    exact range_map_getD none prog.links []
  · rw [destroy_links_unloaded, ← hp]
    exact range_map_getD none prog.progs []

theorem destroy_links_length (prog : ebpf_program) (n : Nat) :
    ∀ i, (destroy_links prog n i).length = 2 * n := by
  induction n with
  | zero => intro i; rfl
  | succ n ih => intro i; simp [destroy_links, ih (i + 1)]; omega

theorem attached_lookup_calls (k : Kernel) (obj : bpf_object) (l : List Lookup) :
    attached_links (l.map (Lookup.call k obj)) = [] := by
  induction l with
  | nil => rfl
  | cons a l ih =>
    simp only [attached_links] at ih
    cases a <;> simp [attached_links, Lookup.call, Call.attached, ih]

theorem attached_attach_calls (k : Kernel) (progs : List (Option bpf_program)) (l : List Nat)
    (hall : ∀ j ∈ l, attach_ok k progs j = true) :
    (attached_links (l.map (attach_call k progs))).map some =
      l.map (fun j => k.bpf_program__attach j (progs.getD j none)) := by
  induction l with
  | nil => rfl
  | cons j l ih =>
    have hj : attach_ok k progs j = true := hall j (by simp)
    have hl : ∀ i ∈ l, attach_ok k progs i = true := fun i hi => hall i (by simp [hi])
    have ih2 := ih hl
    simp only [attached_links] at ih2
    cases hr : k.bpf_program__attach j (progs.getD j none) with
    | none => simp [attach_ok, hr, -List.getD_eq_getElem?_getD] at hj
    | some r =>
      simp [attached_links, attach_call, Call.attached, hr, ih2, -List.getD_eq_getElem?_getD,
        -List.filterMap_map]

theorem attached_links_of_success (k : Kernel) (filename : String) (params : ebpf_params)
    (obj : bpf_object) (hA : attaches_ok k params obj = true) :
    (attached_links (Call.object_open filename (some obj) :: Call.object_load obj 0 ::
        ((lookups params).map (Lookup.call k obj) ++ attach_calls k params obj))).map some =
      (constructed k filename params obj).links := by
  have hall : ∀ j ∈ List.range' 0 params.progs.length,
      attach_ok k (params.progs.map (k.bpf_object__find_program_by_name obj)) j = true := by
    simpa [attaches_ok] using hA
  have h1 := attached_lookup_calls k obj (lookups params)
  have h2 := attached_attach_calls k _ _ hall
  rw [attach_calls_of_ok k params obj hA]
  simp only [attached_links] at h1 h2 ⊢
  simp only [List.filterMap_cons, Call.attached, List.filterMap_append, h1, List.nil_append, h2]
  rfl

/-! ## The claims on the handle lifecycle -/

/-- C1, which the code breaks: with two entry points, when the second attachment
fails after the first one succeeded, `ebpf_program_open_and_load` returns `NULL`
as the claim says, but it makes no `bpf_link__destroy` call, so the link of the
first attachment is left: one link remains, not 0. -/
theorem open_and_load_failed_attach_leaves_link :
    (ebpf_program_open_and_load (sample_kernel 0 1 0) "hello.bpf.o" two_progs_params).2 = none ∧
    attached_links
      (ebpf_program_open_and_load (sample_kernel 0 1 0) "hello.bpf.o" two_progs_params).1
      = [30] ∧
    destroyed_links
      (ebpf_program_open_and_load (sample_kernel 0 1 0) "hello.bpf.o" two_progs_params).1
      = [] ∧
    links_left
      (ebpf_program_open_and_load (sample_kernel 0 1 0) "hello.bpf.o" two_progs_params).1
      = 1 := by
  decide

/-- C2 as stated fails: for a handle with two entry points attached in the order
link 30, link 31, `ebpf_program_destroy` destroys link 30 first and link 31 second,
which is not the reverse of the attachment order. -/
theorem destroy_order_is_not_reversed :
    (ebpf_program_open_and_load kernel_ok "hello.bpf.o" two_progs_params).2
      = some sample_handle_two ∧
    attached_links (ebpf_program_open_and_load kernel_ok "hello.bpf.o" two_progs_params).1
      = [30, 31] ∧
    destroyed_links (ebpf_program_destroy sample_handle_two) = [some 30, some 31] ∧
    destroyed_links (ebpf_program_destroy sample_handle_two) ≠
      ((attached_links
        (ebpf_program_open_and_load kernel_ok "hello.bpf.o" two_progs_params).1).map
          some).reverse := by
  decide

/-- C2 amended: for every handle that `ebpf_program_open_and_load` returns,
`ebpf_program_destroy` passes the links to `bpf_link__destroy` in the same order
in which `ebpf_program_open_and_load` got them from `bpf_program__attach`. -/
theorem destroy_detaches_in_attach_order (k : Kernel) (filename : String)
    (params : ebpf_params) (h : ebpf_program)
    (hs : (ebpf_program_open_and_load k filename params).2 = some h) :
    destroyed_links (ebpf_program_destroy h) =
      (attached_links (ebpf_program_open_and_load k filename params).1).map some := by
  obtain ⟨obj, _, _, _, hA, rfl, hlog⟩ := open_and_load_some k filename params h hs
  rw [hlog, attached_links_of_success k filename params obj hA]
  have hd := (destroy_of_lengths (constructed k filename params obj)
    (by simp [constructed]) (by simp [constructed])).1
  simp only [destroyed_links] at hd
  simp [ebpf_program_destroy, destroyed_links, List.filterMap_append, hd, Call.destroyed]

/-- The amended C2 on the sample handle with two entry points. -/
theorem destroy_detaches_in_attach_order_witness :
    (ebpf_program_open_and_load kernel_ok "hello.bpf.o" two_progs_params).2
      = some sample_handle_two ∧
    destroyed_links (ebpf_program_destroy sample_handle_two) =
      (attached_links
        (ebpf_program_open_and_load kernel_ok "hello.bpf.o" two_progs_params).1).map some :=
  ⟨by decide,
    destroy_detaches_in_attach_order kernel_ok "hello.bpf.o" two_progs_params sample_handle_two
      (by decide)⟩

/-- C3, which the code breaks: when every step up to the handle succeeds and
`perf_buffer__new` fails, `main` jumps to `cleanup` and returns 0, not 1, for
every argument vector, signal timing and list of waits. -/
theorem main_exits_zero_when_perf_buffer_fails :
    ∀ (argv : List String) (sig_startup : Bool) (waits : List Wait),
      (main (sample_kernel 0 8 (-12)) argv sig_startup waits).2 = some 0 := by
  intro argv sig_startup waits
  rfl

/-- C5, which the code breaks: when `bpf_object__open` succeeds and
`bpf_object__load` fails, `ebpf_program_open_and_load` returns `NULL` after the
two calls open and load only: `bpf_object__close` is not called on the opened
object. -/
theorem open_and_load_failed_load_never_closes :
    (ebpf_program_open_and_load (sample_kernel (-1) 8 0) "hello.bpf.o" main_params).2 = none ∧
    (ebpf_program_open_and_load (sample_kernel (-1) 8 0) "hello.bpf.o" main_params).1 =
      [Call.object_open "hello.bpf.o" (some 1), Call.object_load 1 (-1)] ∧
    close_count
      (ebpf_program_open_and_load (sample_kernel (-1) 8 0) "hello.bpf.o" main_params).1 = 0 := by
  decide

theorem present_of_all (k : Kernel) (obj : bpf_object) (params : ebpf_params)
    (hL : (lookups params).all (Lookup.present k obj) = true) :
    (∀ n ∈ params.progs, k.bpf_object__find_program_by_name obj n ≠ none) ∧
      (∀ n ∈ params.maps, k.bpf_object__find_map_by_name obj n ≠ none) := by
  have hall : ∀ a ∈ lookups params, Lookup.present k obj a = true := by simpa using hL
  constructor
  · intro n hn hnone
    have := hall (Lookup.prog n) (by simp [lookups, hn])
    simp [Lookup.present, hnone] at this
  · intro n hn hnone
    have := hall (Lookup.map n) (by simp [lookups, hn])
    simp [Lookup.present, hnone] at this

/-- C6: for every handle that `ebpf_program_open_and_load` returns for N entry
points, `ebpf_program_destroy` makes 2N calls followed by one `bpf_object__close`
on the object of the handle; the 2N calls carry one `bpf_link__destroy` for each
of the N slots of `links` and one `bpf_program__unload` for each of the N slots
of `progs`, in slot order, and the close is the only one and comes last. -/
theorem destroy_once_each_then_close (k : Kernel) (filename : String)
    (params : ebpf_params) (h : ebpf_program)
    (hs : (ebpf_program_open_and_load k filename params).2 = some h) :
    ∃ body, ebpf_program_destroy h = body ++ [Call.object_close h.obj] ∧
      destroyed_links body = h.links ∧ unloaded_progs body = h.progs ∧
      body.length = 2 * params.prog_count ∧
      h.links.length = params.prog_count ∧ h.progs.length = params.prog_count ∧
      close_count (ebpf_program_destroy h) = 1 := by
  obtain ⟨obj, _, _, _, _, rfl, _⟩ := open_and_load_some k filename params h hs
  have hd := destroy_of_lengths (constructed k filename params obj)
    (by simp [constructed]) (by simp [constructed])
  have hc := destroy_links_close_count (constructed k filename params obj)
    (constructed k filename params obj).prog_count 0
  refine ⟨destroy_links (constructed k filename params obj)
    (constructed k filename params obj).prog_count 0, rfl, hd.1, hd.2, ?_, ?_, ?_, ?_⟩
  · rw [destroy_links_length]; rfl
  · simp [constructed, ebpf_params.prog_count]
  · simp [constructed, ebpf_params.prog_count]
  · simp only [close_count] at hc
    simp [ebpf_program_destroy, close_count, List.countP_append, hc, Call.is_close]

/-- C6 on the sample handle with two entry points. -/
theorem destroy_once_each_then_close_witness :
    (ebpf_program_open_and_load kernel_ok "hello.bpf.o" two_progs_params).2
      = some sample_handle_two ∧
    ∃ body, ebpf_program_destroy sample_handle_two =
        body ++ [Call.object_close sample_handle_two.obj] ∧
      destroyed_links body = sample_handle_two.links ∧
      unloaded_progs body = sample_handle_two.progs ∧
      body.length = 2 * two_progs_params.prog_count ∧
      sample_handle_two.links.length = two_progs_params.prog_count ∧
      sample_handle_two.progs.length = two_progs_params.prog_count ∧
      close_count (ebpf_program_destroy sample_handle_two) = 1 :=
  ⟨by decide,
    destroy_once_each_then_close kernel_ok "hello.bpf.o" two_progs_params sample_handle_two
      (by decide)⟩

/-- C7: for every handle that `ebpf_program_open_and_load` returns and every
name, `ebpf_program_find_map_by_name` returns `NULL` exactly when the name is
not among the configured map names; the names of the bindings are the configured
names in order; and for a configured name the result is the map of the first
binding that carries the name, which is not `NULL`.  The result is a function
of the handle and the name. -/
theorem find_map_by_name_exact (k : Kernel) (filename : String)
    (params : ebpf_params) (h : ebpf_program)
    (hs : (ebpf_program_open_and_load k filename params).2 = some h) (name : String) :
    (ebpf_program_find_map_by_name h name = none ↔ name ∉ params.maps) ∧
    h.maps.map ebpf_map_table.name = params.maps.map some ∧
    (name ∈ params.maps →
      ∃ i slot, h.maps[i]? = some slot ∧ slot.name = some name ∧
        (∀ j : Nat, j < i → ∀ s, h.maps[j]? = some s → s.name ≠ some name) ∧
        slot.map ≠ none ∧ ebpf_program_find_map_by_name h name = slot.map) := by
  obtain ⟨obj, _, _, hL, _, rfl, _⟩ := open_and_load_some k filename params h hs
  have hpres := (present_of_all k obj params hL).2
  have hfind : ebpf_program_find_map_by_name (constructed k filename params obj) name =
      ((constructed k filename params obj).maps.find?
        (fun s => decide (s.name = some name))).bind ebpf_map_table.map := by
    unfold ebpf_program_find_map_by_name
    rw [find_map_from_eq _ _ _ 0 (by simp [constructed])]
    simp
  have hslots : ∀ s ∈ (constructed k filename params obj).maps,
      s.map ≠ none ∧ ∃ n ∈ params.maps, s.name = some n := by
    intro s hmem
    simp only [constructed, List.mem_map] at hmem
    obtain ⟨n, hn, rfl⟩ := hmem
    exact ⟨hpres n hn, n, hn, rfl⟩
  have hnames : (constructed k filename params obj).maps.map ebpf_map_table.name =
      params.maps.map some := by
    simp [constructed]
  by_cases hmem : name ∈ params.maps
  · have hex : ∃ s ∈ (constructed k filename params obj).maps,
        (fun s : ebpf_map_table => decide (s.name = some name)) s = true :=
      ⟨⟨some name, k.bpf_object__find_map_by_name obj name⟩,
        by simp only [constructed, List.mem_map]; exact ⟨name, hmem, rfl⟩, by simp⟩
    obtain ⟨i, slot, hi, hp, hfirst, hf⟩ := find?_first _ _ hex
    have hslot := (hslots slot (List.getElem?_mem hi)).1
    have hres : ebpf_program_find_map_by_name (constructed k filename params obj) name =
        slot.map := by rw [hfind, hf]; rfl
    refine ⟨?_, hnames, fun _ => ⟨i, slot, hi, by simpa using hp, ?_, hslot, hres⟩⟩
    · rw [hres]
      exact ⟨fun h0 => absurd h0 hslot, fun h0 => absurd hmem h0⟩
    · intro j hj s hjs
      simpa using hfirst j hj s hjs
  · have hnone : (constructed k filename params obj).maps.find?
        (fun s => decide (s.name = some name)) = none := by
      rw [List.find?_eq_none]
      intro s hs2
      obtain ⟨_, n, hn, hname⟩ := hslots s hs2
      have : n ≠ name := fun e => hmem (e ▸ hn)
      simp [hname, this]
    refine ⟨?_, hnames, fun h0 => absurd h0 hmem⟩
    rw [hfind, hnone]
    exact ⟨fun _ => hmem, fun _ => rfl⟩

/-- C7 on the handle of the configuration of `main`, for the name `output`. -/
theorem find_map_by_name_exact_witness :
    (ebpf_program_open_and_load kernel_ok "hello.bpf.o" main_params).2 = some sample_handle ∧
    ((ebpf_program_find_map_by_name sample_handle "output" = none ↔
        "output" ∉ main_params.maps) ∧
      sample_handle.maps.map ebpf_map_table.name = main_params.maps.map some ∧
      ("output" ∈ main_params.maps →
        ∃ i slot, sample_handle.maps[i]? = some slot ∧ slot.name = some "output" ∧
          (∀ j : Nat, j < i → ∀ s, sample_handle.maps[j]? = some s → s.name ≠ some "output") ∧
          slot.map ≠ none ∧ ebpf_program_find_map_by_name sample_handle "output" = slot.map)) :=
  ⟨by decide,
    find_map_by_name_exact kernel_ok "hello.bpf.o" main_params sample_handle (by decide)
      "output"⟩

/-- C8: every handle that `ebpf_program_open_and_load` returns for N entry
points and M maps has `prog_count` N, `map_count` M and `link_count` equal to
`prog_count`; its three arrays have these lengths; its object, every entry
point, every map with its name and every link is not `NULL`; and for the
configuration of `main` the counts are 1 entry point, 2 maps and 1 link. -/
theorem open_and_load_handle_fully_constructed (k : Kernel) (filename : String)
    (params : ebpf_params) (h : ebpf_program)
    (hs : (ebpf_program_open_and_load k filename params).2 = some h) :
    h.prog_count = params.prog_count ∧ h.map_count = params.map_count ∧
    h.link_count = h.prog_count ∧
    h.progs.length = h.prog_count ∧ h.maps.length = h.map_count ∧
    h.links.length = h.link_count ∧
    h.obj ≠ none ∧
    (∀ p ∈ h.progs, p ≠ none) ∧
    (∀ m ∈ h.maps, m.map ≠ none ∧ m.name ≠ none) ∧
    (∀ l ∈ h.links, l ≠ none) ∧
    (params = main_params → h.prog_count = 1 ∧ h.map_count = 2 ∧ h.link_count = 1) := by
  obtain ⟨obj, _, _, hL, hA, rfl, _⟩ := open_and_load_some k filename params h hs
  have hpres := present_of_all k obj params hL
  have hall : ∀ j ∈ List.range' 0 params.progs.length,
      attach_ok k (params.progs.map (k.bpf_object__find_program_by_name obj)) j = true := by
    simpa [attaches_ok] using hA
  refine ⟨rfl, rfl, rfl, by simp [constructed], by simp [constructed], by simp [constructed],
    by simp [constructed], ?_, ?_, ?_, ?_⟩
  · intro p hp
    simp only [constructed, List.mem_map] at hp
    obtain ⟨n, hn, rfl⟩ := hp
    exact hpres.1 n hn
  · intro m hm
    simp only [constructed, List.mem_map] at hm
    obtain ⟨n, hn, rfl⟩ := hm
    exact ⟨hpres.2 n hn, by simp⟩
  · intro l hl
    simp only [constructed, List.mem_map] at hl
    obtain ⟨j, hj, rfl⟩ := hl
    have := hall j hj
    intro hnone
    simp [attach_ok, hnone, -List.getD_eq_getElem?_getD] at this
  · intro hp
    subst hp
    exact ⟨rfl, rfl, rfl⟩

/-- C8 on the handle of the configuration of `main`. -/
theorem open_and_load_handle_fully_constructed_witness :
    (ebpf_program_open_and_load kernel_ok "hello.bpf.o" main_params).2 = some sample_handle ∧
    (sample_handle.prog_count = main_params.prog_count ∧
      sample_handle.map_count = main_params.map_count ∧
      sample_handle.link_count = sample_handle.prog_count ∧
      sample_handle.progs.length = sample_handle.prog_count ∧
      sample_handle.maps.length = sample_handle.map_count ∧
      sample_handle.links.length = sample_handle.link_count ∧
      sample_handle.obj ≠ none ∧
      (∀ p ∈ sample_handle.progs, p ≠ none) ∧
      (∀ m ∈ sample_handle.maps, m.map ≠ none ∧ m.name ≠ none) ∧
      (∀ l ∈ sample_handle.links, l ≠ none) ∧
      (main_params = main_params →
        sample_handle.prog_count = 1 ∧ sample_handle.map_count = 2 ∧
          sample_handle.link_count = 1)) :=
  ⟨by decide,
    open_and_load_handle_fully_constructed kernel_ok "hello.bpf.o" main_params sample_handle
      (by decide)⟩

/-- C9: once the object is opened and loaded, `ebpf_program_open_and_load` looks
the names up in the configured order, entry points first and maps second.  When
every name is present, the calls after open and load are exactly these lookups
in order followed by attachments only, and a returned handle holds at index i
the program found for `params.progs[i]` and the binding of `params.maps[i]` to
the map found for it.  When a name is absent, the calls stop with the lookup of
the first absent name (no later lookup, no attachment) and `NULL` is returned. -/
theorem open_and_load_resolution_order (k : Kernel) (filename : String)
    (params : ebpf_params) (obj : bpf_object)
    (ho : k.bpf_object__open filename = some obj) (hl : k.bpf_object__load obj = 0) :
    ((lookups params).all (Lookup.present k obj) = true →
      (∃ attaches, (∀ c ∈ attaches, Call.is_attach c = true) ∧
        (ebpf_program_open_and_load k filename params).1 =
          Call.object_open filename (some obj) :: Call.object_load obj 0 ::
            ((lookups params).map (Lookup.call k obj) ++ attaches)) ∧
      ∀ h, (ebpf_program_open_and_load k filename params).2 = some h →
        h.progs = params.progs.map (k.bpf_object__find_program_by_name obj) ∧
        h.maps = params.maps.map
          (fun n => ⟨some n, k.bpf_object__find_map_by_name obj n⟩)) ∧
    (∀ pre miss post, lookups params = pre ++ miss :: post →
      (∀ r ∈ pre, Lookup.present k obj r = true) → Lookup.present k obj miss = false →
      (ebpf_program_open_and_load k filename params).1 =
        Call.object_open filename (some obj) :: Call.object_load obj 0 ::
          (pre ++ [miss]).map (Lookup.call k obj) ∧
      (ebpf_program_open_and_load k filename params).2 = none) := by
  rw [open_and_load_loaded k filename params obj ho hl]
  constructor
  · intro hL
    have hall : ∀ a ∈ lookups params, Lookup.present k obj a = true := by simpa using hL
    refine ⟨⟨attach_calls k params obj, ?_, ?_⟩, ?_⟩
    · intro c hc
      simp only [attach_calls, List.mem_map] at hc
      obtain ⟨j, _, rfl⟩ := hc
      rfl
    · simp [hL, through_first_failure_all _ _ hall]
    · intro h hh
      cases hA : attaches_ok k params obj with
      | false => simp [hL, hA] at hh
      | true =>
        have : h = constructed k filename params obj := by simpa [hL, hA] using hh.symm
        subst this
        exact ⟨rfl, rfl⟩
  · intro pre miss post hsplit hpre hmiss
    have hnot : (lookups params).all (Lookup.present k obj) = false := by
      rw [hsplit]
      simp [hmiss]
    rw [hnot, hsplit, through_first_failure_split _ pre miss post hpre hmiss]
    simp

/-- C9 on a configuration whose entry point `missing_one` is absent from the
object: the lookups stop with it and `NULL` is returned. -/
theorem open_and_load_resolution_order_witness :
    kernel_ok.bpf_object__open "hello.bpf.o" = some 1 ∧ kernel_ok.bpf_object__load 1 = 0 ∧
    lookups missing_params =
      [] ++ Lookup.prog "missing_one" :: [Lookup.map "output", Lookup.map "my_config"] ∧
    (∀ r ∈ ([] : List Lookup), Lookup.present kernel_ok 1 r = true) ∧
    Lookup.present kernel_ok 1 (Lookup.prog "missing_one") = false ∧
    (ebpf_program_open_and_load kernel_ok "hello.bpf.o" missing_params).1 =
      Call.object_open "hello.bpf.o" (some 1) :: Call.object_load 1 0 ::
        ([] ++ [Lookup.prog "missing_one"]).map (Lookup.call kernel_ok 1) ∧
    (ebpf_program_open_and_load kernel_ok "hello.bpf.o" missing_params).2 = none :=
  ⟨by decide, by decide, by decide, by simp, by decide,
    (open_and_load_resolution_order kernel_ok "hello.bpf.o" missing_params 1
      (by decide) (by decide)).2 [] (Lookup.prog "missing_one")
      [Lookup.map "output", Lookup.map "my_config"] (by decide) (by simp) (by decide)⟩

/-! ## The poll loop -/

theorem poll_loop_stopped (ws : List Wait) :
    poll_loop false false ws = [Step.read_g_run false] := by
  cases ws <;> simp [poll_loop]

theorem poll_loop_cons_draining (g : Bool) (w : Wait) (rest : List Wait) :
    poll_loop true g (w :: rest) =
      Step.poll (g && !w.sig_before) w.ret ::
        poll_loop (decide (0 < w.ret)) (g && !w.sig_before && !w.sig_during) rest := by
  simp [poll_loop]

theorem poll_loop_cons_running (w : Wait) (rest : List Wait) :
    poll_loop false true (w :: rest) =
      Step.read_g_run true :: Step.poll (!w.sig_before) w.ret ::
        poll_loop (decide (0 < w.ret)) (!w.sig_before && !w.sig_during) rest := by
  simp [poll_loop]

theorem poll_loop_head_running (g : Bool) (ws : List Wait) :
    (poll_loop false g ws).head? = some (Step.read_g_run g) := by
  cases ws with
  | nil => simp [poll_loop]
  | cons w rest => cases g <;> simp [poll_loop]

theorem poll_loop_head_draining (g : Bool) (ws : List Wait) :
    ∀ y ∈ (poll_loop true g ws).head?, ∃ g1 r, y = Step.poll g1 r := by
  cases ws with
  | nil => simp [poll_loop]
  | cons w rest =>
    intro y hy
    rw [poll_loop_cons_draining] at hy
    exact ⟨_, _, by simpa using hy.symm⟩

theorem poll_loop_chain (ws : List Wait) :
    ∀ (d g : Bool), List.Chain' (fun a b => Step.follows a b = true) (poll_loop d g ws) := by
  induction ws with
  | nil => intro d g; cases d <;> simp [poll_loop]
  | cons w rest ih =>
    have htail : ∀ g1 g2 : Bool, List.Chain' (fun a b => Step.follows a b = true)
        (Step.poll g1 w.ret :: poll_loop (decide (0 < w.ret)) g2 rest) := by
      intro g1 g2
      rw [List.chain'_cons']
      refine ⟨?_, ih _ _⟩
      intro y hy
      by_cases hpos : 0 < w.ret
      · simp only [hpos, decide_True] at hy
        obtain ⟨g3, r3, rfl⟩ := poll_loop_head_draining g2 rest y hy
        simp [Step.follows, hpos]
      · simp only [hpos, decide_False, poll_loop_head_running, Option.mem_def,
          Option.some.injEq] at hy
        subst hy
        simp only [Step.follows, decide_eq_true_eq]
        omega
    intro d g
    cases d with
    | true => rw [poll_loop_cons_draining]; exact htail _ _
    | false =>
      cases g with
      | false => simp [poll_loop_stopped]
      | true =>
        rw [poll_loop_cons_running, List.chain'_cons']
        exact ⟨by simp [Step.follows], htail _ _⟩

theorem poll_loop_as_no_data (ws : List Wait) :
    ∀ (d g : Bool),
      poll_loop d g (ws.map Wait.as_no_data) = (poll_loop d g ws).map Step.as_no_data := by
  induction ws with
  | nil => intro d g; cases d <;> simp [poll_loop, Step.as_no_data]
  | cons w rest ih =>
    have hret : decide (0 < (Wait.as_no_data w).ret) = decide (0 < w.ret) := by
      by_cases hneg : w.ret < 0
      · have : ¬ 0 < w.ret := by omega
        simp [Wait.as_no_data, hneg, this]
      · simp [Wait.as_no_data, hneg]
    have hsb : (Wait.as_no_data w).sig_before = w.sig_before := by
      unfold Wait.as_no_data; split <;> rfl
    have hsd : (Wait.as_no_data w).sig_during = w.sig_during := by
      unfold Wait.as_no_data; split <;> rfl
    have hstep : ∀ g1 : Bool, Step.poll g1 (Wait.as_no_data w).ret =
        Step.as_no_data (Step.poll g1 w.ret) := by
      intro g1
      by_cases hneg : w.ret < 0 <;> simp [Wait.as_no_data, Step.as_no_data, hneg]
    intro d g
    cases d with
    | true =>
      rw [List.map_cons, poll_loop_cons_draining, poll_loop_cons_draining, List.map_cons,
        hret, hsb, hsd, hstep, ih]
    | false =>
      cases g with
      | false => simp [poll_loop_stopped, Step.as_no_data]
      | true =>
        rw [List.map_cons, poll_loop_cons_running, poll_loop_cons_running, List.map_cons,
          List.map_cons, hret, hsb, hsd, hstep, ih]
        rfl

theorem steps_once_stopped (ws : List Wait) :
    ∀ (d : Bool), ∀ s ∈ poll_loop d false ws,
      s = Step.read_g_run false ∨ ∃ r, s = Step.poll false r := by
  induction ws with
  | nil => intro d s hs; cases d <;> simp [poll_loop] at hs; exact Or.inl hs
  | cons w rest ih =>
    intro d s hs
    cases d with
    | false =>
      rw [poll_loop_stopped] at hs
      exact Or.inl (by simpa using hs)
    | true =>
      rw [poll_loop_cons_draining] at hs
      rcases List.mem_cons.mp hs with rfl | hmem
      · exact Or.inr ⟨w.ret, by simp⟩
      · exact ih _ s (by simpa using hmem)

theorem poll_loop_read_false_last (ws : List Wait) :
    ∀ (d g : Bool) (pre post : List Step),
      poll_loop d g ws = pre ++ Step.read_g_run false :: post → post = [] := by
  induction ws with
  | nil =>
    intro d g pre post h
    cases d
    · cases pre with
      | nil => simp [poll_loop] at h; exact h.2
      | cons p pre => simp [poll_loop] at h
    · simp [poll_loop] at h
  | cons w rest ih =>
    have htail : ∀ (g1 g2 : Bool) (pre post : List Step),
        Step.poll g1 w.ret :: poll_loop (decide (0 < w.ret)) g2 rest =
          pre ++ Step.read_g_run false :: post → post = [] := by
      intro g1 g2 pre post h
      cases pre with
      | nil => simp at h
      | cons p pre =>
        rw [List.cons_append, List.cons.injEq] at h
        exact ih _ _ pre post h.2
    intro d g pre post h
    cases d with
    | true => rw [poll_loop_cons_draining] at h; exact htail _ _ pre post h
    | false =>
      cases g with
      | false =>
        rw [poll_loop_stopped] at h
        cases pre with
        | nil => simp at h; exact h
        | cons p pre => simp at h
      | true =>
        rw [poll_loop_cons_running] at h
        cases pre with
        | nil => simp at h
        | cons p pre =>
          rw [List.cons_append, List.cons.injEq] at h
          exact htail _ _ pre post h.2

theorem poll_loop_late_poll (ws : List Wait) :
    ∀ (d g : Bool) (pre : List Step) (ret : Int) (post : List Step),
      poll_loop d g ws = pre ++ Step.poll false ret :: post →
      (∀ s ∈ post, s = Step.read_g_run false ∨ ∃ r, s = Step.poll false r) ∧
      (ret ≤ 0 → post = [Step.read_g_run false]) := by
  induction ws with
  | nil =>
    intro d g pre ret post h
    cases d
    · cases pre with
      | nil => simp [poll_loop] at h
      | cons p pre => simp [poll_loop] at h
    · simp [poll_loop] at h
  | cons w rest ih =>
    have htail : ∀ (g1 g2 : Bool), (g1 = false → g2 = false) →
        ∀ (pre : List Step) (ret : Int) (post : List Step),
        Step.poll g1 w.ret :: poll_loop (decide (0 < w.ret)) g2 rest =
          pre ++ Step.poll false ret :: post →
        (∀ s ∈ post, s = Step.read_g_run false ∨ ∃ r, s = Step.poll false r) ∧
        (ret ≤ 0 → post = [Step.read_g_run false]) := by
      intro g1 g2 hg pre ret post h
      cases pre with
      | nil =>
        rw [List.nil_append, List.cons.injEq, Step.poll.injEq] at h
        obtain ⟨⟨hg1, hret⟩, hpost⟩ := h
        have hg2 : g2 = false := hg hg1
        subst hg2 hret hpost
        refine ⟨fun s hs => steps_once_stopped rest _ s hs, fun hle => ?_⟩
        have : ¬ 0 < w.ret := by omega
        simp [this, poll_loop_stopped]
      | cons p pre =>
        rw [List.cons_append, List.cons.injEq] at h
        exact ih _ _ pre ret post h.2
    intro d g pre ret post h
    cases d with
    | true =>
      rw [poll_loop_cons_draining] at h
      exact htail _ _ (by intro h1; simp [h1]) pre ret post h
    | false =>
      cases g with
      | false =>
        rw [poll_loop_stopped] at h
        cases pre with
        | nil => simp at h
        | cons p pre => simp at h
      | true =>
        rw [poll_loop_cons_running] at h
        cases pre with
        | nil => simp at h
        | cons p pre =>
          rw [List.cons_append, List.cons.injEq] at h
          exact htail _ _ (by intro h1; simp [h1]) pre ret post h.2

theorem poll_loop_late_idle (ws : List Wait) :
    ∀ (d g : Bool), late_idle_polls (poll_loop d g ws) ≤ 1 := by
  induction ws with
  | nil => intro d g; cases d <;> simp [poll_loop, late_idle_polls, Step.is_late_idle]
  | cons w rest ih =>
    have htail : ∀ (g1 g2 : Bool), (g1 = false → g2 = false) →
        late_idle_polls
          (Step.poll g1 w.ret :: poll_loop (decide (0 < w.ret)) g2 rest) ≤ 1 := by
      intro g1 g2 hg
      by_cases hidle : Step.is_late_idle (Step.poll g1 w.ret) = true
      · have h1 : g1 = false ∧ w.ret ≤ 0 := by simpa [Step.is_late_idle] using hidle
        have h2 : g2 = false := hg h1.1
        have h3 : ¬ 0 < w.ret := by omega
        subst h2
        simp [late_idle_polls, List.countP_cons, h3, poll_loop_stopped, Step.is_late_idle]
        split <;> omega
      · have := ih (decide (0 < w.ret)) g2
        simp only [late_idle_polls] at this
        simp [late_idle_polls, List.countP_cons, hidle, this]
    intro d g
    cases d with
    | true =>
      rw [poll_loop_cons_draining]
      exact htail _ _ (by intro h1; simp [h1])
    | false =>
      cases g with
      | false => simp [poll_loop_stopped, late_idle_polls, Step.is_late_idle]
      | true =>
        rw [poll_loop_cons_running]
        have := htail (!w.sig_before) (!w.sig_before && !w.sig_during) (by intro h1; simp [h1])
        simp only [late_idle_polls] at this
        simpa [late_idle_polls, List.countP_cons, Step.is_late_idle] using this

/-- C4 as stated fails: `sig_int` sets `g_run` to false during the first wait,
the first two waits return one record each and the third none; the loop then
enters two more `perf_buffer__poll` calls with `g_run` already false before it
reads the flag and leaves. -/
theorem poll_loop_two_waits_after_stop :
    poll_loop false true sample_waits =
      [Step.read_g_run true, Step.poll true 1, Step.poll false 1, Step.poll false 0,
        Step.read_g_run false] ∧
    late_polls (poll_loop false true sample_waits) = 2 ∧
    ¬ late_polls (poll_loop false true sample_waits) ≤ 1 := by
  decide

theorem late_polls_of_burst (n : Nat) :
    late_polls (poll_loop true false (List.replicate n ⟨false, false, 1⟩)) = n := by
  induction n with
  | zero => simp [poll_loop, late_polls]
  | succ n ih =>
    simp only [late_polls] at ih
    rw [List.replicate_succ, poll_loop_cons_draining]
    simp [late_polls, List.countP_cons, Step.is_late, ih]

/-- C4 amended: for every initial value of `g_run`, every list of waits and every
timing of `sig_int`, the loop of `main` makes no step after a test that read
`g_run` as false; once a `perf_buffer__poll` call has been entered with `g_run`
false, every later step is such a call or the final test reading false; a call
entered with `g_run` false that returns zero or a negative value is the last
call, followed by the test that reads false and leaves the loop; so at most one
call that returns no records is entered after `g_run` was set to false.  The
number of calls entered after `g_run` was set to false is not bounded: for
every n there are waits, each returning one record, with which n calls are
entered after `sig_int` ran. -/
theorem poll_loop_after_stop (g_run : Bool) (waits : List Wait) :
    (∀ pre post, poll_loop false g_run waits = pre ++ Step.read_g_run false :: post →
      post = []) ∧
    (∀ pre ret post, poll_loop false g_run waits = pre ++ Step.poll false ret :: post →
      (∀ s ∈ post, s = Step.read_g_run false ∨ ∃ r, s = Step.poll false r) ∧
      (ret ≤ 0 → post = [Step.read_g_run false])) ∧
    late_idle_polls (poll_loop false g_run waits) ≤ 1 ∧
    (∀ n : Nat, late_polls
      (poll_loop false true (⟨false, true, 1⟩ :: List.replicate n ⟨false, false, 1⟩)) = n) := by
  refine ⟨poll_loop_read_false_last waits false g_run, poll_loop_late_poll waits false g_run,
    poll_loop_late_idle waits false g_run, ?_⟩
  intro n
  have h := late_polls_of_burst n
  simp only [late_polls] at h
  rw [poll_loop_cons_running]
  simp [late_polls, List.countP_cons, Step.is_late, h]

/-- The amended C4 on the sample waits: the call entered with `g_run` false that
returns 0 is followed by the final test only. -/
theorem poll_loop_after_stop_witness :
    poll_loop false true sample_waits =
      [Step.read_g_run true, Step.poll true 1, Step.poll false 1] ++
        Step.poll false 0 :: [Step.read_g_run false] ∧
    (0 : Int) ≤ 0 ∧
    [Step.read_g_run false] = [Step.read_g_run false] :=
  ⟨by decide, by decide,
    ((poll_loop_after_stop true sample_waits).2.1
      [Step.read_g_run true, Step.poll true 1, Step.poll false 1] 0 [Step.read_g_run false]
      (by decide)).2 (by decide)⟩

theorem poll_loop_enter (ws : List Wait) :
    poll_loop false true ws = Step.read_g_run true :: poll_loop true true ws := by
  cases ws with
  | nil => simp [poll_loop]
  | cons w rest => rw [poll_loop_cons_running, poll_loop_cons_draining]; simp

theorem poll_loop_drain_run (pos : List Wait) :
    ∀ (g : Bool) (w : Wait) (rest : List Wait),
      (∀ x ∈ pos, 0 < x.ret) → w.ret ≤ 0 →
      poll_loop true g (pos ++ w :: rest) =
        drain_steps g (pos ++ [w]) ++ poll_loop false (flag_after g (pos ++ [w])) rest := by
  induction pos with
  | nil =>
    intro g w rest _ hw
    have hnot : ¬ 0 < w.ret := by omega
    rw [List.nil_append, poll_loop_cons_draining]
    simp [drain_steps, flag_after, hnot]
  | cons x pos ih =>
    intro g w rest hpos hw
    have hx : 0 < x.ret := hpos x (by simp)
    have hrest : ∀ y ∈ pos, 0 < y.ret := fun y hy => hpos y (by simp [hy])
    rw [List.cons_append, poll_loop_cons_draining]
    simp only [hx, decide_True]
    rw [ih _ w rest hrest hw]
    simp [drain_steps, flag_after]

theorem poll_loop_drain_open (pos : List Wait) :
    ∀ (g : Bool), (∀ x ∈ pos, 0 < x.ret) → poll_loop true g pos = drain_steps g pos := by
  induction pos with
  | nil => intro g _; simp [poll_loop, drain_steps]
  | cons x pos ih =>
    intro g hpos
    have hx : 0 < x.ret := hpos x (by simp)
    have hrest : ∀ y ∈ pos, 0 < y.ret := fun y hy => hpos y (by simp [hy])
    rw [poll_loop_cons_draining]
    simp only [hx, decide_True]
    rw [ih _ hrest]
    simp [drain_steps]

/-- C10: for every initial value of `g_run`, every list of waits and every
timing of `sig_int`, the steps of the loop of `main` are these.  With `g_run`
false the loop reads the flag and leaves without a wait.  With `g_run` true it
reads the flag once and then makes one `perf_buffer__poll` call per wait, in the
order of the waits and with their return values, without reading `g_run`, as
long as the calls return a positive count; the first wait that returns zero or
a negative value ends the run, negative like zero, and the loop goes on from the
test of `g_run` with the waits that remain and the value the flag then has;
when every wait returns a positive count the steps are the test and one call
per wait.  Hence the steps start with a test of `g_run`; a test that read true
is followed by a call; a call that returned a positive count is followed by
another call, with no test in between; a call that returned zero or a negative
value is followed by a test; nothing follows a test that read false; and
replacing every negative return value by 0 leaves the steps unchanged apart
from the recorded return values. -/
theorem poll_loop_drain_semantics (g_run : Bool) (waits : List Wait) :
    (poll_loop false g_run waits).head? = some (Step.read_g_run g_run) ∧
    List.Chain' (fun a b => Step.follows a b = true) (poll_loop false g_run waits) ∧
    poll_loop false g_run (waits.map Wait.as_no_data) =
      (poll_loop false g_run waits).map Step.as_no_data ∧
    poll_loop false false waits = [Step.read_g_run false] ∧
    (∀ pos w rest, waits = pos ++ w :: rest → (∀ x ∈ pos, 0 < x.ret) → w.ret ≤ 0 →
      poll_loop false true waits =
        Step.read_g_run true ::
          (drain_steps true (pos ++ [w]) ++
            poll_loop false (flag_after true (pos ++ [w])) rest)) ∧
    ((∀ x ∈ waits, 0 < x.ret) →
      poll_loop false true waits = Step.read_g_run true :: drain_steps true waits) := by
  refine ⟨poll_loop_head_running g_run waits, poll_loop_chain waits false g_run,
    poll_loop_as_no_data waits false g_run, poll_loop_stopped waits, ?_, ?_⟩
  · intro pos w rest hsplit hpos hw
    rw [poll_loop_enter, hsplit, poll_loop_drain_run pos true w rest hpos hw]
  · intro hpos
    rw [poll_loop_enter, poll_loop_drain_open waits true hpos]

/-- C10 on the sample waits: the drain run is the three waits, of which the
first two return a record and the third none; the loop then reads the flag,
which `sig_int` set during the first wait, and leaves. -/
theorem poll_loop_drain_semantics_witness :
    sample_waits = [⟨false, true, 1⟩, ⟨false, false, 1⟩] ++ ⟨false, false, 0⟩ :: [] ∧
    (∀ x ∈ ([⟨false, true, 1⟩, ⟨false, false, 1⟩] : List Wait), 0 < x.ret) ∧
    (0 : Int) ≤ 0 ∧
    poll_loop false true sample_waits =
      Step.read_g_run true ::
        (drain_steps true ([⟨false, true, 1⟩, ⟨false, false, 1⟩] ++ [⟨false, false, 0⟩]) ++
          poll_loop false
            (flag_after true ([⟨false, true, 1⟩, ⟨false, false, 1⟩] ++ [⟨false, false, 0⟩]))
            []) :=
  ⟨by decide, by decide, by decide,
    (poll_loop_drain_semantics true sample_waits).2.2.2.2.1
      [⟨false, true, 1⟩, ⟨false, false, 1⟩] ⟨false, false, 0⟩ [] (by decide) (by decide)
      (by decide)⟩

end SafeHarbor
